import Mathlib

/-!
# Verification of the 2-D rectangle nesting engine

Shallow embedding of `src/core/nestingEngine.js`: the `NestingEngine`
class (sorting, rotation fallback, recursive region expansion) and the
`GuillouinePacker` class (free-rectangle search with Best Short Side
Fit, guillotine split, containment merge).

Numeric values in the source are JavaScript numbers used only through
`+`, `-`, `*`, `min`, `max` and comparisons, so the embedding is stated
over an arbitrary linear ordered commutative ring `α`; concrete
evaluations instantiate `α := ℤ`.
-/

namespace Nesting

variable {α : Type} [LinearOrderedCommRing α]

/-- An axis-aligned rectangle `{x, y, width, height}`; this is both the
free-rectangle record of the packer and the geometric footprint used to
state disjointness and containment. -/
structure FreeRect (α : Type) where
  x : α
  y : α
  width : α
  height : α
deriving DecidableEq, Repr

/-- An input item `{id, width, height}`.  The opaque `originalItem`
payload carried by the source is irrelevant to the geometry and is
omitted. -/
structure Item (α : Type) where
  id : ℕ
  width : α
  height : α
deriving DecidableEq, Repr

/-- The record returned by `GuillouinePacker.insert`:
`{id, x, y, width, height}` (the `rotated` flag is attached later by
the engine). -/
structure RawPlacement (α : Type) where
  id : ℕ
  x : α
  y : α
  width : α
  height : α
deriving DecidableEq, Repr

/-- A placement in the engine's output:
`{id, x, y, width, height, rotated}`. -/
structure Placement (α : Type) where
  id : ℕ
  x : α
  y : α
  width : α
  height : α
  rotated : Bool
deriving DecidableEq, Repr

/-- The state of a `GuillouinePacker` (the source's class name is kept,
misspelling included): bin dimensions, spacing, and the mutable
free-rectangle list. -/
structure GuillouinePacker (α : Type) where
  binWidth : α
  binHeight : α
  spacing : α
  freeRectangles : List (FreeRect α)
deriving DecidableEq, Repr

/-- The fit test of `insert`:
`w <= rect.width && h <= rect.height` for the padded footprint `(w, h)`. -/
def Fits (w h : α) (r : FreeRect α) : Prop :=
  w ≤ r.width ∧ h ≤ r.height

instance (w h : α) (r : FreeRect α) : Decidable (Fits w h r) := by
  unfold Fits; infer_instance

/-- The short-side-fit score of `insert`:
`min(rect.width - w, rect.height - h)`. -/
def ssf (w h : α) (r : FreeRect α) : α :=
  min (r.width - w) (r.height - h)

namespace GuillouinePacker

/-- `constructor(width, height, spacing = 0)`: one free rectangle
covering the whole region. -/
def make (width height spacing : α) : GuillouinePacker α :=
  ⟨width, height, spacing, [⟨0, 0, width, height⟩]⟩

/-- `isContained(rect, container)`. -/
def isContained (rect container : FreeRect α) : Bool :=
  decide (container.x ≤ rect.x ∧ container.y ≤ rect.y ∧
    rect.x + rect.width ≤ container.x + container.width ∧
    rect.y + rect.height ≤ container.y + container.height)

/-- `mergeRectangles()`: keep a rectangle unless it is contained in a
rectangle at another index of the (pre-filter) list. -/
def mergeRectangles (st : GuillouinePacker α) : GuillouinePacker α :=
  { st with freeRectangles :=
      ((st.freeRectangles.enum.filter fun p =>
        ! st.freeRectangles.enum.any fun q =>
          p.1 != q.1 && isContained p.2 q.2).map Prod.snd) }

/-- `splitFreeNode(freeRect, usedWidth, usedHeight, index)`: remove the
used rectangle, push the right and bottom remainders when they have
positive size, then merge. -/
def splitFreeNode (st : GuillouinePacker α) (freeRect : FreeRect α)
    (usedWidth usedHeight : α) (index : ℕ) : GuillouinePacker α :=
  let fr0 := st.freeRectangles.eraseIdx index
  let rightWidth := freeRect.width - usedWidth
  let bottomHeight := freeRect.height - usedHeight
  let fr1 := if 0 < rightWidth then
      fr0 ++ [⟨freeRect.x + usedWidth, freeRect.y, rightWidth, freeRect.height⟩]
    else fr0
  let fr2 := if 0 < bottomHeight then
      fr1 ++ [⟨freeRect.x, freeRect.y + usedHeight, usedWidth, bottomHeight⟩]
    else fr1
  mergeRectangles { st with freeRectangles := fr2 }

/-- The search loop of `insert`: scan the free rectangles in order,
keeping `(bestIndex, bestRect, bestShortSideFit)`; the initial state
`none` plays the role of `bestShortSideFit = Infinity`. -/
def findBestLoop (w h : α) :
    List (FreeRect α) → ℕ → Option (ℕ × FreeRect α × α) →
      Option (ℕ × FreeRect α × α)
  | [], _, best => best
  | rect :: rest, i, best =>
    if Fits w h rect then
      let shortSideFit := ssf w h rect
      match best with
      | none => findBestLoop w h rest (i + 1) (some (i, rect, shortSideFit))
      | some (bi, br, bs) =>
        if shortSideFit < bs then
          findBestLoop w h rest (i + 1) (some (i, rect, shortSideFit))
        else
          findBestLoop w h rest (i + 1) (some (bi, br, bs))
    else
      findBestLoop w h rest (i + 1) best

/-- `insert(width, height, id)`: pad the dimensions by the spacing,
find the best free rectangle by Best Short Side Fit, and on success
return the placement (carrying the unpadded dimensions) and split the
chosen rectangle.  The new packer state is returned alongside. -/
def insert (st : GuillouinePacker α) (width height : α) (id : ℕ) :
    Option (RawPlacement α) × GuillouinePacker α :=
  let w := width + st.spacing
  let h := height + st.spacing
  match findBestLoop w h st.freeRectangles 0 none with
  | none => (none, st)
  | some (bestIndex, bestRect, _) =>
    (some ⟨id, bestRect.x, bestRect.y, width, height⟩,
     st.splitFreeNode bestRect w h bestIndex)

end GuillouinePacker

/-- The configuration state of a `NestingEngine` instance. -/
structure NestingEngine (α : Type) where
  spacing : α
  allowRotation : Bool
  targetWidth : α
  targetHeight : α
deriving DecidableEq, Repr

/-- The `options` object passed to the `NestingEngine` constructor;
each field may be absent. -/
structure Options (α : Type) where
  spacing : Option α
  allowRotation : Option Bool
  targetWidth : Option α
  targetHeight : Option α
deriving DecidableEq, Repr

/-- JavaScript `options.f || d` for a numeric field: an absent field or
the (falsy) number `0` both yield the default. -/
def numOr (v : Option α) (d : α) : α :=
  match v with
  | some s => if s = 0 then d else s
  | none => d

namespace NestingEngine

/-- The `NestingEngine` constructor:
`spacing = options.spacing || 10`, `allowRotation = options.allowRotation || false`,
`targetWidth = options.targetWidth || 1000`, `targetHeight = options.targetHeight || 1000`. -/
def make (options : Options α) : NestingEngine α :=
  ⟨numOr options.spacing 10, options.allowRotation.getD false,
   numOr options.targetWidth 1000, numOr options.targetHeight 1000⟩

/-- One step of the stable sort by descending area: insert an item in
front of the first element whose area is not larger. -/
def insertByArea (it : Item α) : List (Item α) → List (Item α)
  | [] => [it]
  | y :: ys =>
    if y.width * y.height ≤ it.width * it.height then it :: y :: ys
    else y :: insertByArea it ys

/-- `[...items].sort((a, b) => b.width*b.height - a.width*a.height)`:
the stable sort by descending area. -/
def sortByAreaDesc (items : List (Item α)) : List (Item α) :=
  items.foldr insertByArea []

/-- The placement loop of `nest`: try each item, retry rotated when the
plain insert fails, rotation is allowed and the item is not square;
failed items are collected in the unplaced list. -/
def placeItems (e : NestingEngine α) (pk : GuillouinePacker α) :
    List (Item α) → List (Placement α) × List (Item α)
  | [] => ([], [])
  | item :: rest =>
    match pk.insert item.width item.height item.id with
    | (some pl, pk1) =>
      let out := placeItems e pk1 rest
      (⟨pl.id, pl.x, pl.y, pl.width, pl.height, false⟩ :: out.1, out.2)
    | (none, pk1) =>
      if e.allowRotation ∧ item.width ≠ item.height then
        match pk1.insert item.height item.width item.id with
        | (some pl, pk2) =>
          let out := placeItems e pk2 rest
          (⟨pl.id, pl.x, pl.y, pl.width, pl.height, true⟩ :: out.1, out.2)
        | (none, pk2) =>
          let out := placeItems e pk2 rest
          (out.1, item :: out.2)
      else
        let out := placeItems e pk1 rest
        (out.1, item :: out.2)

/-- `calculateBounds(placements)`: the maximal right and bottom edges,
starting from `(0, 0)`. -/
def calculateBounds (placements : List (Placement α)) : α × α :=
  placements.foldl
    (fun m p => (max m.1 (p.x + p.width), max m.2 (p.y + p.height))) (0, 0)

/-- One packing attempt of `nest`: sort, build a fresh packer of the
target size, and run the placement loop. -/
def nestAttempt (e : NestingEngine α) (items : List (Item α)) :
    List (Placement α) × List (Item α) :=
  placeItems e (GuillouinePacker.make e.targetWidth e.targetHeight e.spacing)
    (sortByAreaDesc items)

/-- The expanded engine built when some items are unplaced: a new
`NestingEngine` whose options carry the same spacing and rotation flag
and the grown target `max(target, bounds + 100)`. -/
def expandedEngine (e : NestingEngine α) (placements : List (Placement α)) :
    NestingEngine α :=
  let bounds := calculateBounds placements
  make ⟨some e.spacing, some e.allowRotation,
    some (max e.targetWidth (bounds.1 + 100)),
    some (max e.targetHeight (bounds.2 + 100))⟩

/-- `nest(items)`.  The source recursion has no termination guard, so
the embedding is indexed by fuel: `none` means the bound was reached
without the recursion finishing, and any `some` result is the value the
source returns (together with the engine configuration of the attempt
that produced it). -/
def nestFuel : ℕ → NestingEngine α → List (Item α) →
    Option (List (Placement α) × NestingEngine α)
  | 0, _, _ => none
  | fuel + 1, e, items =>
    if items.isEmpty then some ([], e)
    else
      let out := nestAttempt e items
      if ¬ out.2.isEmpty ∧ ¬ out.1.isEmpty then
        nestFuel fuel (expandedEngine e out.1) items
      else
        some (out.1, e)

end NestingEngine

/-! ## Geometric predicates used to state the claims -/

/-- Two rectangles do not overlap: they are separated along some axis
(their interiors are disjoint). -/
def Disj (a b : FreeRect α) : Prop :=
  a.x + a.width ≤ b.x ∨ b.x + b.width ≤ a.x ∨
  a.y + a.height ≤ b.y ∨ b.y + b.height ≤ a.y

instance (a b : FreeRect α) : Decidable (Disj a b) := by
  unfold Disj; infer_instance

/-- `a` is a (weak) sub-rectangle of `b`. -/
def SubR (a b : FreeRect α) : Prop :=
  b.x ≤ a.x ∧ b.y ≤ a.y ∧
  a.x + a.width ≤ b.x + b.width ∧ a.y + a.height ≤ b.y + b.height

instance (a b : FreeRect α) : Decidable (SubR a b) := by
  unfold SubR; infer_instance

/-- The rectangle lies inside the region `[0, W] × [0, H]`. -/
def InBin (W H : α) (a : FreeRect α) : Prop :=
  0 ≤ a.x ∧ 0 ≤ a.y ∧ a.x + a.width ≤ W ∧ a.y + a.height ≤ H

instance (W H : α) (a : FreeRect α) : Decidable (InBin W H a) := by
  unfold InBin; infer_instance

/-- The padded footprint of a placement: anchored at `(x, y)`, with the
spacing margin added to each dimension. -/
def padded (s : α) (p : Placement α) : FreeRect α :=
  ⟨p.x, p.y, p.width + s, p.height + s⟩

/-- Proof-side reformulation of the search loop of `insert`: the first
candidate (in list order) achieving the minimal short-side-fit score,
together with its index.  Proved equal to `findBestLoop` below. -/
def bestCand (w h : α) : List (FreeRect α) → Option (ℕ × FreeRect α)
  | [] => none
  | r :: rs =>
    if Fits w h r then
      match bestCand w h rs with
      | none => some (0, r)
      | some (j, q) =>
        if ssf w h q < ssf w h r then some (j + 1, q) else some (0, r)
    else
      match bestCand w h rs with
      | none => none
      | some (j, q) => some (j + 1, q)

/-! ## The packer invariant -/

/-- Invariant tying a packer state to the footprints already placed in
it: free rectangles lie in the bin, are pairwise disjoint, and are
disjoint from every placed footprint; placed footprints lie in the bin
and are pairwise disjoint. -/
structure Inv (pk : GuillouinePacker α) (placed : List (FreeRect α)) : Prop where
  free_in : ∀ r ∈ pk.freeRectangles, InBin pk.binWidth pk.binHeight r
  free_disj : ∀ r ∈ pk.freeRectangles, ∀ q ∈ placed, Disj r q
  free_pair : pk.freeRectangles.Pairwise Disj
  placed_in : ∀ q ∈ placed, InBin pk.binWidth pk.binHeight q
  placed_pair : placed.Pairwise Disj

/-- A packer state reached from construction by a sequence of `insert`
requests `(width, height, id)`; used to state reachable-state
invariants. -/
def runInserts (pk : GuillouinePacker α) : List (α × α × ℕ) → GuillouinePacker α
  | [] => pk
  | (w, h, id) :: rest => runInserts (pk.insert w h id).2 rest

/-! ## Basic geometric lemmas -/

theorem disj_symm {a b : FreeRect α} (h : Disj a b) : Disj b a := by
  unfold Disj at *; tauto

theorem subR_disj {a b c : FreeRect α} (hab : SubR a b) (hbc : Disj b c) :
    Disj a c := by
  obtain ⟨h1, h2, h3, h4⟩ := hab
  rcases hbc with h | h | h | h
  · exact Or.inl (by linarith)
  · exact Or.inr (Or.inl (by linarith))
  · exact Or.inr (Or.inr (Or.inl (by linarith)))
  · exact Or.inr (Or.inr (Or.inr (by linarith)))

theorem subR_inBin {W H : α} {a b : FreeRect α} (hab : SubR a b)
    (h : InBin W H b) : InBin W H a := by
  obtain ⟨h1, h2, h3, h4⟩ := hab
  obtain ⟨k1, k2, k3, k4⟩ := h
  exact ⟨by linarith, by linarith, by linarith, by linarith⟩

/-! ## List helper lemmas -/

theorem enumFrom_map_snd {β : Type} (n : ℕ) (l : List β) :
    (List.enumFrom n l).map Prod.snd = l := by
  induction l generalizing n with
  | nil => rfl
  | cons a as ih => simp [List.enumFrom, ih]

theorem enum_map_snd {β : Type} (l : List β) : l.enum.map Prod.snd = l :=
  enumFrom_map_snd 0 l

theorem get_decomp {β : Type} :
    ∀ {l : List β} {k : ℕ} {r : β}, l[k]? = some r →
      ∃ l1 l2, l = l1 ++ r :: l2 ∧ l1.length = k
  | [], k, r, h => by simp at h
  | a :: as, 0, r, h => by
    simp at h
    exact ⟨[], as, by simp [h], rfl⟩
  | a :: as, k + 1, r, h => by
    simp at h
    obtain ⟨l1, l2, hl, hk⟩ := get_decomp h
    exact ⟨a :: l1, l2, by simp [hl], by simp [hk]⟩

theorem eraseIdx_decomp {β : Type} (l1 : List β) (r : β) (l2 : List β) :
    (l1 ++ r :: l2).eraseIdx l1.length = l1 ++ l2 := by
  induction l1 with
  | nil => rfl
  | cons a as ih => simpa [List.eraseIdx] using ih

theorem pairwise_decomp {β : Type} {R : β → β → Prop}
    (hs : ∀ {x y : β}, R x y → R y x) {l1 l2 : List β} {r : β}
    (h : (l1 ++ r :: l2).Pairwise R) :
    (l1 ++ l2).Pairwise R ∧ ∀ x ∈ l1 ++ l2, R r x := by
  rw [List.pairwise_append] at h
  obtain ⟨h1, h2, h3⟩ := h
  rw [List.pairwise_cons] at h2
  constructor
  · rw [List.pairwise_append]
    exact ⟨h1, h2.2, fun a ha b hb => h3 a ha b (List.mem_cons_of_mem _ hb)⟩
  · intro x hx
    rcases List.mem_append.1 hx with hx | hx
    · exact hs (h3 x hx r (List.mem_cons_self _ _))
    · exact h2.1 x hx

theorem pairwise_push {β : Type} {R : β → β → Prop} {l : List β} {a : β}
    (h : l.Pairwise R) (ha : ∀ x ∈ l, R x a) : (l ++ [a]).Pairwise R := by
  rw [List.pairwise_append]
  refine ⟨h, List.pairwise_singleton _ _, fun x hx b hb => ?_⟩
  rw [List.mem_singleton] at hb
  subst hb
  exact ha x hx

/-! ## The search loop computes the first minimal-score candidate -/

theorem findBestLoop_some (w h : α) :
    ∀ (l : List (FreeRect α)) (i bi : ℕ) (br : FreeRect α) (bs : α),
      GuillouinePacker.findBestLoop w h l i (some (bi, br, bs)) =
        match bestCand w h l with
        | none => some (bi, br, bs)
        | some (k, q) =>
          if ssf w h q < bs then some (i + k, q, ssf w h q)
          else some (bi, br, bs) := by
  intro l
  induction l with
  | nil => intro i bi br bs; rfl
  | cons r rs ih =>
    intro i bi br bs
    by_cases hf : Fits w h r
    · rw [GuillouinePacker.findBestLoop, if_pos hf]
      dsimp only
      by_cases h1 : ssf w h r < bs
      · rw [if_pos h1, ih]
        cases hc : bestCand w h rs with
        | none =>
          simp only [bestCand, if_pos hf, hc]
          simp [h1]
        | some p =>
          obtain ⟨j, q⟩ := p
          simp only [bestCand, if_pos hf, hc]
          by_cases h2 : ssf w h q < ssf w h r
          · have h3 : ssf w h q < bs := lt_trans h2 h1
            simp only [if_pos h2, if_pos h3]
            congr 2
            omega
          · simp [h2, h1]
      · rw [if_neg h1, ih]
        cases hc : bestCand w h rs with
        | none =>
          simp only [bestCand, if_pos hf, hc]
          simp [h1]
        | some p =>
          obtain ⟨j, q⟩ := p
          simp only [bestCand, if_pos hf, hc]
          by_cases h2 : ssf w h q < ssf w h r
          · simp only [if_pos h2]
            by_cases h3 : ssf w h q < bs
            · simp only [if_pos h3]
              congr 2
              omega
            · simp [h3]
          · have h3 : ¬ ssf w h q < bs := by
              push_neg at h1 h2 ⊢
              exact le_trans h1 h2
            simp [h2, h3, h1]
    · rw [GuillouinePacker.findBestLoop, if_neg hf]
      rw [ih]
      cases hc : bestCand w h rs with
      | none => simp only [bestCand, if_neg hf, hc]
      | some p =>
        obtain ⟨j, q⟩ := p
        simp only [bestCand, if_neg hf, hc]
        by_cases h3 : ssf w h q < bs
        · simp only [if_pos h3]
          congr 2
          omega
        · simp [h3]

theorem findBestLoop_none (w h : α) :
    ∀ (l : List (FreeRect α)) (i : ℕ),
      GuillouinePacker.findBestLoop w h l i none =
        (bestCand w h l).map (fun p => (i + p.1, p.2, ssf w h p.2)) := by
  intro l
  induction l with
  | nil => intro i; rfl
  | cons r rs ih =>
    intro i
    by_cases hf : Fits w h r
    · rw [GuillouinePacker.findBestLoop, if_pos hf]
      dsimp only
      rw [findBestLoop_some]
      cases hc : bestCand w h rs with
      | none => simp only [bestCand, if_pos hf, hc]; simp
      | some p =>
        obtain ⟨j, q⟩ := p
        simp only [bestCand, if_pos hf, hc]
        by_cases h2 : ssf w h q < ssf w h r
        · simp only [if_pos h2, Option.map_some']
          congr 2
          omega
        · simp [h2]
    · rw [GuillouinePacker.findBestLoop, if_neg hf]
      rw [ih]
      cases hc : bestCand w h rs with
      | none => simp only [bestCand, if_neg hf, hc]; rfl
      | some p =>
        obtain ⟨j, q⟩ := p
        simp only [bestCand, if_neg hf, hc, Option.map_some']
        congr 2
        omega

theorem bestCand_none_iff (w h : α) (l : List (FreeRect α)) :
    bestCand w h l = none ↔ ∀ r ∈ l, ¬ Fits w h r := by
  induction l with
  | nil => simp [bestCand]
  | cons r rs ih =>
    simp only [bestCand]
    cases hc : bestCand w h rs with
    | none =>
      rw [hc] at ih
      by_cases hf : Fits w h r
      · simp only [if_pos hf]
        constructor
        · intro hcon; simp at hcon
        · intro hall; exact absurd hf (hall r (List.mem_cons_self r rs))
      · simp only [if_neg hf]
        simp only [List.mem_cons]
        constructor
        · intro _ x hx
          rcases hx with hx | hx
          · subst hx; exact hf
          · exact ih.1 rfl x hx
        · intro _; trivial
    | some p =>
      obtain ⟨j, q⟩ := p
      rw [hc] at ih
      by_cases hf : Fits w h r
      · simp only [if_pos hf]
        constructor
        · intro hcon
          by_cases h2 : ssf w h q < ssf w h r <;> simp [h2] at hcon
        · intro hall; exact absurd hf (hall r (List.mem_cons_self r rs))
      · simp only [if_neg hf]
        constructor
        · intro hcon; simp at hcon
        · intro hall
          have hrs : ∀ x ∈ rs, ¬ Fits w h x :=
            fun x hx => hall x (List.mem_cons_of_mem _ hx)
          exact absurd (ih.2 hrs) (by simp)

theorem bestCand_mem {w h : α} :
    ∀ {l : List (FreeRect α)} {k : ℕ} {r : FreeRect α},
      bestCand w h l = some (k, r) → l[k]? = some r ∧ Fits w h r := by
  intro l
  induction l with
  | nil => intro k r hk; simp [bestCand] at hk
  | cons a as ih =>
    intro k r hk
    simp only [bestCand] at hk
    cases hc : bestCand w h as with
    | none =>
      rw [hc] at hk
      by_cases hf : Fits w h a
      · rw [if_pos hf] at hk
        dsimp only at hk
        simp only [Option.some.injEq, Prod.mk.injEq] at hk
        obtain ⟨hk1, hk2⟩ := hk
        subst hk1; subst hk2
        exact ⟨by simp, hf⟩
      · rw [if_neg hf] at hk
        dsimp only at hk
        exact absurd hk (by simp)
    | some p =>
      obtain ⟨j, q⟩ := p
      rw [hc] at hk
      by_cases hf : Fits w h a
      · rw [if_pos hf] at hk
        dsimp only at hk
        by_cases h2 : ssf w h q < ssf w h a
        · rw [if_pos h2] at hk
          simp only [Option.some.injEq, Prod.mk.injEq] at hk
          obtain ⟨hk1, hk2⟩ := hk
          subst hk2
          obtain ⟨hm, hfq⟩ := ih hc
          subst hk1
          exact ⟨by simpa using hm, hfq⟩
        · rw [if_neg h2] at hk
          simp only [Option.some.injEq, Prod.mk.injEq] at hk
          obtain ⟨hk1, hk2⟩ := hk
          subst hk1; subst hk2
          exact ⟨by simp, hf⟩
      · rw [if_neg hf] at hk
        dsimp only at hk
        simp only [Option.some.injEq, Prod.mk.injEq] at hk
        obtain ⟨hk1, hk2⟩ := hk
        subst hk2
        obtain ⟨hm, hfq⟩ := ih hc
        subst hk1
        exact ⟨by simpa using hm, hfq⟩

theorem bestCand_min {w h : α} :
    ∀ {l : List (FreeRect α)} {k : ℕ} {r : FreeRect α},
      bestCand w h l = some (k, r) →
        ∀ (j : ℕ) (q : FreeRect α), l[j]? = some q → Fits w h q →
          ssf w h r ≤ ssf w h q := by
  intro l
  induction l with
  | nil => intro k r hk; simp [bestCand] at hk
  | cons a as ih =>
    intro k r hk j q hj hq
    simp only [bestCand] at hk
    cases hc : bestCand w h as with
    | none =>
      rw [hc] at hk
      by_cases hf : Fits w h a
      · rw [if_pos hf] at hk
        dsimp only at hk
        simp only [Option.some.injEq, Prod.mk.injEq] at hk
        obtain ⟨hk1, hk2⟩ := hk
        subst hk2
        cases j with
        | zero =>
          simp only [List.getElem?_cons_zero, Option.some.injEq] at hj
          subst hj; exact le_refl _
        | succ j' =>
          simp only [List.getElem?_cons_succ] at hj
          have := (bestCand_none_iff w h as).1 hc q (List.getElem?_mem hj)
          exact absurd hq this
      · rw [if_neg hf] at hk
        dsimp only at hk
        exact absurd hk (by simp)
    | some p =>
      obtain ⟨j0, q0⟩ := p
      rw [hc] at hk
      by_cases hf : Fits w h a
      · rw [if_pos hf] at hk
        dsimp only at hk
        by_cases h2 : ssf w h q0 < ssf w h a
        · rw [if_pos h2] at hk
          simp only [Option.some.injEq, Prod.mk.injEq] at hk
          obtain ⟨hk1, hk2⟩ := hk
          subst hk2
          cases j with
          | zero =>
            simp only [List.getElem?_cons_zero, Option.some.injEq] at hj
            subst hj; exact le_of_lt h2
          | succ j' =>
            simp only [List.getElem?_cons_succ] at hj
            exact ih hc j' q hj hq
        · rw [if_neg h2] at hk
          simp only [Option.some.injEq, Prod.mk.injEq] at hk
          obtain ⟨hk1, hk2⟩ := hk
          subst hk2
          cases j with
          | zero =>
            simp only [List.getElem?_cons_zero, Option.some.injEq] at hj
            subst hj; exact le_refl _
          | succ j' =>
            simp only [List.getElem?_cons_succ] at hj
            push_neg at h2
            exact le_trans h2 (ih hc j' q hj hq)
      · rw [if_neg hf] at hk
        dsimp only at hk
        simp only [Option.some.injEq, Prod.mk.injEq] at hk
        obtain ⟨hk1, hk2⟩ := hk
        subst hk2
        cases j with
        | zero =>
          simp only [List.getElem?_cons_zero, Option.some.injEq] at hj
          subst hj; exact absurd hq hf
        | succ j' =>
          simp only [List.getElem?_cons_succ] at hj
          exact ih hc j' q hj hq

theorem bestCand_first {w h : α} :
    ∀ {l : List (FreeRect α)} {k : ℕ} {r : FreeRect α},
      bestCand w h l = some (k, r) →
        ∀ (j : ℕ) (q : FreeRect α), j < k → l[j]? = some q → Fits w h q →
          ssf w h r < ssf w h q := by
  intro l
  induction l with
  | nil => intro k r hk; simp [bestCand] at hk
  | cons a as ih =>
    intro k r hk j q hjk hj hq
    simp only [bestCand] at hk
    cases hc : bestCand w h as with
    | none =>
      rw [hc] at hk
      by_cases hf : Fits w h a
      · rw [if_pos hf] at hk
        dsimp only at hk
        simp only [Option.some.injEq, Prod.mk.injEq] at hk
        omega
      · rw [if_neg hf] at hk
        dsimp only at hk
        exact absurd hk (by simp)
    | some p =>
      obtain ⟨j0, q0⟩ := p
      rw [hc] at hk
      by_cases hf : Fits w h a
      · rw [if_pos hf] at hk
        dsimp only at hk
        by_cases h2 : ssf w h q0 < ssf w h a
        · rw [if_pos h2] at hk
          simp only [Option.some.injEq, Prod.mk.injEq] at hk
          obtain ⟨hk1, hk2⟩ := hk
          subst hk2
          cases j with
          | zero =>
            simp only [List.getElem?_cons_zero, Option.some.injEq] at hj
            subst hj; exact h2
          | succ j' =>
            simp only [List.getElem?_cons_succ] at hj
            exact ih hc j' q (by omega) hj hq
        · rw [if_neg h2] at hk
          simp only [Option.some.injEq, Prod.mk.injEq] at hk
          omega
      · rw [if_neg hf] at hk
        dsimp only at hk
        simp only [Option.some.injEq, Prod.mk.injEq] at hk
        obtain ⟨hk1, hk2⟩ := hk
        subst hk2
        cases j with
        | zero =>
          simp only [List.getElem?_cons_zero, Option.some.injEq] at hj
          subst hj; exact absurd hq hf
        | succ j' =>
          simp only [List.getElem?_cons_succ] at hj
          exact ih hc j' q (by omega) hj hq

/-! ## Characterization of `insert` -/

theorem insert_eq (st : GuillouinePacker α) (width height : α) (id : ℕ) :
    st.insert width height id =
      match bestCand (width + st.spacing) (height + st.spacing)
          st.freeRectangles with
      | none => (none, st)
      | some (k, r) =>
        (some ⟨id, r.x, r.y, width, height⟩,
         st.splitFreeNode r (width + st.spacing) (height + st.spacing) k) := by
  unfold GuillouinePacker.insert
  dsimp only
  rw [findBestLoop_none]
  cases hc : bestCand (width + st.spacing) (height + st.spacing)
      st.freeRectangles with
  | none => rfl
  | some p =>
    obtain ⟨k, r⟩ := p
    simp only [Option.map_some']
    norm_num

theorem insert_none_of_no_fit (st : GuillouinePacker α) (width height : α)
    (id : ℕ)
    (h : ∀ r ∈ st.freeRectangles,
      ¬ Fits (width + st.spacing) (height + st.spacing) r) :
    st.insert width height id = (none, st) := by
  rw [insert_eq]
  rw [(bestCand_none_iff _ _ _).2 h]

theorem insert_some_elim {st : GuillouinePacker α} {width height : α}
    {id : ℕ} {pl : RawPlacement α} {st' : GuillouinePacker α}
    (h : st.insert width height id = (some pl, st')) :
    ∃ k r, bestCand (width + st.spacing) (height + st.spacing)
        st.freeRectangles = some (k, r) ∧
      pl = ⟨id, r.x, r.y, width, height⟩ ∧
      st' = st.splitFreeNode r (width + st.spacing) (height + st.spacing) k := by
  rw [insert_eq] at h
  cases hc : bestCand (width + st.spacing) (height + st.spacing)
      st.freeRectangles with
  | none => rw [hc] at h; simp at h
  | some p =>
    obtain ⟨k, r⟩ := p
    rw [hc] at h
    dsimp only at h
    simp only [Prod.mk.injEq, Option.some.injEq] at h
    exact ⟨k, r, rfl, h.1.symm, h.2.symm⟩

theorem insert_none_state {st : GuillouinePacker α} {width height : α}
    {id : ℕ} {st' : GuillouinePacker α}
    (h : st.insert width height id = (none, st')) : st' = st := by
  rw [insert_eq] at h
  cases hc : bestCand (width + st.spacing) (height + st.spacing)
      st.freeRectangles with
  | none => rw [hc] at h; exact (Prod.mk.injEq _ _ _ _ ▸ h).2.symm
  | some p =>
    obtain ⟨k, r⟩ := p
    rw [hc] at h
    simp at h

theorem inv_init (W H s : α) : Inv (GuillouinePacker.make W H s) [] := by
  constructor
  · intro r hr
    simp only [GuillouinePacker.make, List.mem_singleton] at hr
    subst hr
    exact ⟨le_refl _, le_refl _, by simp [GuillouinePacker.make],
      by simp [GuillouinePacker.make]⟩
  · intro r _ q hq; simp at hq
  · simp [GuillouinePacker.make]
  · intro q hq; simp at hq
  · simp

theorem mergeRectangles_fields (st : GuillouinePacker α) :
    (st.mergeRectangles).binWidth = st.binWidth ∧
    (st.mergeRectangles).binHeight = st.binHeight ∧
    (st.mergeRectangles).spacing = st.spacing :=
  ⟨rfl, rfl, rfl⟩

theorem mergeRectangles_sublist (st : GuillouinePacker α) :
    (st.mergeRectangles).freeRectangles.Sublist st.freeRectangles := by
  unfold GuillouinePacker.mergeRectangles
  dsimp only
  have h1 : ((st.freeRectangles.enum.filter fun p =>
        ! st.freeRectangles.enum.any fun q =>
          p.1 != q.1 && GuillouinePacker.isContained p.2 q.2).map
            Prod.snd).Sublist (st.freeRectangles.enum.map Prod.snd) :=
    List.Sublist.map Prod.snd (List.filter_sublist _)
  rwa [enum_map_snd] at h1

theorem merge_inv {st : GuillouinePacker α} {placed : List (FreeRect α)}
    (h : Inv st placed) : Inv st.mergeRectangles placed := by
  have hsub := mergeRectangles_sublist st
  constructor
  · intro r hr; exact h.free_in r (hsub.subset hr)
  · intro r hr q hq; exact h.free_disj r (hsub.subset hr) q hq
  · exact h.free_pair.sublist hsub
  · exact h.placed_in
  · exact h.placed_pair

theorem mem_if_singleton {β : Type} {c : Prop} [Decidable c] {a x : β}
    (h : x ∈ (if c then [a] else [])) : x = a := by
  split at h
  · simpa using h
  · simp at h

theorem splitFreeNode_eq (pk : GuillouinePacker α) (r : FreeRect α)
    (w h : α) (i : ℕ) :
    pk.splitFreeNode r w h i =
      GuillouinePacker.mergeRectangles
        ⟨pk.binWidth, pk.binHeight, pk.spacing,
          pk.freeRectangles.eraseIdx i ++
            (if 0 < r.width - w then [⟨r.x + w, r.y, r.width - w, r.height⟩]
              else []) ++
            (if 0 < r.height - h then [⟨r.x, r.y + h, w, r.height - h⟩]
              else [])⟩ := by
  unfold GuillouinePacker.splitFreeNode
  by_cases h1 : 0 < r.width - w <;> by_cases h2 : 0 < r.height - h <;>
    simp [h1, h2]

/-- Preservation of the invariant by a successful `insert`: the new
placement's padded footprint joins the placed list, stays inside the
bin, and remains disjoint from everything. -/
theorem insert_some_inv {pk : GuillouinePacker α} {placed : List (FreeRect α)}
    {width height : α} {id : ℕ} {pl : RawPlacement α}
    {pk' : GuillouinePacker α}
    (hinv : Inv pk placed)
    (hw : 0 ≤ width + pk.spacing) (hh : 0 ≤ height + pk.spacing)
    (hins : pk.insert width height id = (some pl, pk')) :
    pl.id = id ∧ pl.width = width ∧ pl.height = height ∧
    pk'.binWidth = pk.binWidth ∧ pk'.binHeight = pk.binHeight ∧
    pk'.spacing = pk.spacing ∧
    Inv pk' (⟨pl.x, pl.y, width + pk.spacing, height + pk.spacing⟩ :: placed) := by
  obtain ⟨k, r, hbc, hpl, hst⟩ := insert_some_elim hins
  obtain ⟨hget, hfits⟩ := bestCand_mem hbc
  obtain ⟨l1, l2, hdec, hlen⟩ := get_decomp hget
  subst hpl
  set w := width + pk.spacing with hw_def
  set h := height + pk.spacing with hh_def
  obtain ⟨hfw, hfh⟩ := hfits
  -- names for the footprint and the two remainders
  set F : FreeRect α := ⟨r.x, r.y, w, h⟩ with hF
  set R1 : FreeRect α := ⟨r.x + w, r.y, r.width - w, r.height⟩ with hR1
  set R2 : FreeRect α := ⟨r.x, r.y + h, w, r.height - h⟩ with hR2
  have hsub1 : SubR R1 r := by
    refine ⟨by simpa using hw, le_refl _, ?_, le_refl _⟩
    simp only [hR1]
    linarith
  have hsub2 : SubR R2 r := by
    refine ⟨le_refl _, by simpa using hh, ?_, ?_⟩
    · simp only [hR2]; linarith
    · simp only [hR2]; linarith
  have hsubF : SubR F r := by
    refine ⟨le_refl _, le_refl _, ?_, ?_⟩
    · simp only [hF]; linarith
    · simp only [hF]; linarith
  have hd12 : Disj R1 R2 := by
    refine Or.inr (Or.inl ?_)
    simp only [hR1, hR2]
    linarith
  have hdF1 : Disj F R1 := by
    refine Or.inl ?_
    simp only [hF, hR1]
    exact le_refl _
  have hdF2 : Disj F R2 := by
    refine Or.inr (Or.inr (Or.inl ?_))
    simp only [hF, hR2]
    exact le_refl _
  have hr_mem : r ∈ pk.freeRectangles := by
    rw [hdec]; exact List.mem_append.2 (Or.inr (List.mem_cons_self _ _))
  have hr_in : InBin pk.binWidth pk.binHeight r := hinv.free_in r hr_mem
  have hr_dp : ∀ q ∈ placed, Disj r q := hinv.free_disj r hr_mem
  have hpair := hinv.free_pair
  rw [hdec] at hpair
  obtain ⟨hpair_rest, hr_drest⟩ := pairwise_decomp (fun hxy => disj_symm hxy) hpair
  have herase : pk.freeRectangles.eraseIdx k = l1 ++ l2 := by
    rw [hdec, ← hlen, eraseIdx_decomp]
  -- membership in the pre-merge list
  set L := pk.freeRectangles.eraseIdx k ++
      (if 0 < r.width - w then [R1] else []) ++
      (if 0 < r.height - h then [R2] else []) with hL
  have hmemL : ∀ x ∈ L, x ∈ l1 ++ l2 ∨ x = R1 ∨ x = R2 := by
    intro x hx
    rcases List.mem_append.1 hx with hx | hx
    · rcases List.mem_append.1 hx with hx | hx
      · rw [herase] at hx; exact Or.inl hx
      · exact Or.inr (Or.inl (mem_if_singleton hx))
    · exact Or.inr (Or.inr (mem_if_singleton hx))
  have hmem_old : ∀ x ∈ l1 ++ l2, x ∈ pk.freeRectangles := by
    intro x hx
    rw [hdec]
    rcases List.mem_append.1 hx with hx | hx
    · exact List.mem_append.2 (Or.inl hx)
    · exact List.mem_append.2 (Or.inr (List.mem_cons_of_mem _ hx))
  -- each element of the new list: in bin, disjoint from F, disjoint from placed
  have hin_new : ∀ x ∈ L, InBin pk.binWidth pk.binHeight x := by
    intro x hx
    rcases hmemL x hx with hx | hx | hx
    · exact hinv.free_in x (hmem_old x hx)
    · subst hx; exact subR_inBin hsub1 hr_in
    · subst hx; exact subR_inBin hsub2 hr_in
  have hdisjF_new : ∀ x ∈ L, Disj x F := by
    intro x hx
    rcases hmemL x hx with hx | hx | hx
    · exact disj_symm (subR_disj hsubF (hr_drest x hx))
    · subst hx; exact disj_symm hdF1
    · subst hx; exact disj_symm hdF2
  have hdisjP_new : ∀ x ∈ L, ∀ q ∈ placed, Disj x q := by
    intro x hx q hq
    rcases hmemL x hx with hx | hx | hx
    · exact hinv.free_disj x (hmem_old x hx) q hq
    · subst hx; exact subR_disj hsub1 (hr_dp q hq)
    · subst hx; exact subR_disj hsub2 (hr_dp q hq)
  have hpairL : L.Pairwise Disj := by
    rw [hL]
    refine List.pairwise_append.2 ⟨List.pairwise_append.2 ⟨?_, ?_, ?_⟩, ?_, ?_⟩
    · rw [herase]; exact hpair_rest
    · split <;> simp
    · intro a ha b hb
      have hb' := mem_if_singleton hb
      subst hb'
      rw [herase] at ha
      exact disj_symm (subR_disj hsub1 (hr_drest a ha))
    · split <;> simp
    · intro a ha b hb
      have hb' := mem_if_singleton hb
      subst hb'
      rcases List.mem_append.1 ha with ha | ha
      · rw [herase] at ha
        exact disj_symm (subR_disj hsub2 (hr_drest a ha))
      · have ha' := mem_if_singleton ha
        subst ha'
        exact hd12
  -- assemble the invariant before the merge, then push through the merge
  have hinv2 : Inv ⟨pk.binWidth, pk.binHeight, pk.spacing, L⟩ (F :: placed) := by
    constructor
    · intro x hx; exact hin_new x hx
    · intro x hx q hq
      rcases List.mem_cons.1 hq with hq | hq
      · subst hq; exact hdisjF_new x hx
      · exact hdisjP_new x hx q hq
    · exact hpairL
    · intro q hq
      rcases List.mem_cons.1 hq with hq | hq
      · subst hq; exact subR_inBin hsubF hr_in
      · exact hinv.placed_in q hq
    · refine List.pairwise_cons.2 ⟨?_, hinv.placed_pair⟩
      intro q hq
      exact subR_disj hsubF (hr_dp q hq)
  have hfinal := merge_inv hinv2
  rw [hst, ← hlen, splitFreeNode_eq]
  refine ⟨rfl, rfl, rfl, rfl, rfl, rfl, ?_⟩
  rw [hlen]
  exact hfinal

/-! ## The placement loop preserves the invariant -/

theorem placeItems_inv (e : NestingEngine α) :
    ∀ (items : List (Item α)) (pk : GuillouinePacker α)
      (placed : List (FreeRect α)),
      Inv pk placed → 0 ≤ pk.spacing →
      (∀ it ∈ items, 0 ≤ it.width ∧ 0 ≤ it.height) →
      (((NestingEngine.placeItems e pk items).1.map (padded pk.spacing)) ++
          placed).Pairwise Disj ∧
      ∀ p ∈ (NestingEngine.placeItems e pk items).1,
        InBin pk.binWidth pk.binHeight (padded pk.spacing p) := by
  intro items
  induction items with
  | nil =>
    intro pk placed hinv hsp hdims
    refine ⟨by simpa using hinv.placed_pair, ?_⟩
    intro p hp
    simp [NestingEngine.placeItems] at hp
  | cons item rest ih =>
    intro pk placed hinv hsp hdims
    have hdw : 0 ≤ item.width := (hdims item (List.mem_cons_self _ _)).1
    have hdh : 0 ≤ item.height := (hdims item (List.mem_cons_self _ _)).2
    have hdrest : ∀ it ∈ rest, 0 ≤ it.width ∧ 0 ≤ it.height :=
      fun it hit => hdims it (List.mem_cons_of_mem _ hit)
    rw [NestingEngine.placeItems]
    cases hi : pk.insert item.width item.height item.id with
    | mk p1 pk1 =>
      cases p1 with
      | some pl =>
        obtain ⟨hid, hwid, hhei, hbw, hbh, hsp1, hinv1⟩ :=
          insert_some_inv hinv (add_nonneg hdw hsp) (add_nonneg hdh hsp) hi
        obtain ⟨HP, HIn⟩ := ih pk1
          (⟨pl.x, pl.y, item.width + pk.spacing, item.height + pk.spacing⟩ ::
            placed)
          hinv1 (hsp1 ▸ hsp) hdrest
        dsimp only
        set F : FreeRect α :=
          ⟨pl.x, pl.y, item.width + pk.spacing, item.height + pk.spacing⟩
          with hF
        have hpad : padded pk.spacing
            (⟨pl.id, pl.x, pl.y, pl.width, pl.height, false⟩ : Placement α)
              = F := by
          simp [padded, hF, hwid, hhei]
        constructor
        · rw [List.map_cons, hpad]
          rw [hsp1] at HP
          have hperm : List.Perm
              (((NestingEngine.placeItems e pk1 rest).1.map
                  (padded pk.spacing)) ++ F :: placed)
              (F :: (((NestingEngine.placeItems e pk1 rest).1.map
                  (padded pk.spacing)) ++ placed)) := List.perm_middle
          exact (hperm.pairwise_iff fun hxy => disj_symm hxy).1 HP
        · intro p hp
          rcases List.mem_cons.1 hp with hp | hp
          · subst hp
            rw [hpad]
            have := hinv1.placed_in F (List.mem_cons_self _ _)
            rwa [hbw, hbh] at this
          · have := HIn p hp
            rwa [hbw, hbh, hsp1] at this
      | none =>
        have hpk1 : pk = pk1 := (insert_none_state hi).symm
        subst hpk1
        dsimp only
        by_cases hrot : e.allowRotation ∧ item.width ≠ item.height
        · rw [if_pos hrot]
          cases hi2 : pk.insert item.height item.width item.id with
          | mk p2 pk2 =>
            cases p2 with
            | some pl =>
              obtain ⟨hid, hwid, hhei, hbw, hbh, hsp1, hinv1⟩ :=
                insert_some_inv hinv (add_nonneg hdh hsp)
                  (add_nonneg hdw hsp) hi2
              obtain ⟨HP, HIn⟩ := ih pk2
                (⟨pl.x, pl.y, item.height + pk.spacing,
                  item.width + pk.spacing⟩ :: placed)
                hinv1 (hsp1 ▸ hsp) hdrest
              dsimp only
              set F : FreeRect α :=
                ⟨pl.x, pl.y, item.height + pk.spacing,
                  item.width + pk.spacing⟩ with hF
              have hpad : padded pk.spacing
                  (⟨pl.id, pl.x, pl.y, pl.width, pl.height, true⟩ :
                    Placement α) = F := by
                simp [padded, hF, hwid, hhei]
              constructor
              · rw [List.map_cons, hpad]
                rw [hsp1] at HP
                have hperm : List.Perm
                    (((NestingEngine.placeItems e pk2 rest).1.map
                        (padded pk.spacing)) ++ F :: placed)
                    (F :: (((NestingEngine.placeItems e pk2 rest).1.map
                        (padded pk.spacing)) ++ placed)) := List.perm_middle
                exact (hperm.pairwise_iff fun hxy => disj_symm hxy).1 HP
              · intro p hp
                rcases List.mem_cons.1 hp with hp | hp
                · subst hp
                  rw [hpad]
                  have := hinv1.placed_in F (List.mem_cons_self _ _)
                  rwa [hbw, hbh] at this
                · have := HIn p hp
                  rwa [hbw, hbh, hsp1] at this
            | none =>
              have hpk2 : pk = pk2 := (insert_none_state hi2).symm
              subst hpk2
              dsimp only
              exact ih pk placed hinv hsp hdrest
        · rw [if_neg hrot]
          dsimp only
          exact ih pk placed hinv hsp hdrest

/-! ## Output placements correspond to input items -/

theorem placeItems_src (e : NestingEngine α) :
    ∀ (items : List (Item α)) (pk : GuillouinePacker α),
      ∀ p ∈ (NestingEngine.placeItems e pk items).1,
        ∃ it ∈ items, p.id = it.id ∧
          ((p.rotated = false ∧ p.width = it.width ∧ p.height = it.height) ∨
           (p.rotated = true ∧ e.allowRotation = true ∧
             it.width ≠ it.height ∧
             p.width = it.height ∧ p.height = it.width)) := by
  intro items
  induction items with
  | nil =>
    intro pk p hp
    simp [NestingEngine.placeItems] at hp
  | cons item rest ih =>
    intro pk p hp
    rw [NestingEngine.placeItems] at hp
    cases hi : pk.insert item.width item.height item.id with
    | mk p1 pk1 =>
      rw [hi] at hp
      cases p1 with
      | some pl =>
        dsimp only at hp
        rcases List.mem_cons.1 hp with hp | hp
        · subst hp
          obtain ⟨k, r, _, hpl, _⟩ := insert_some_elim hi
          refine ⟨item, List.mem_cons_self _ _, ?_, Or.inl ⟨rfl, ?_, ?_⟩⟩ <;>
            simp [hpl]
        · obtain ⟨it, hit, hrest⟩ := ih pk1 p hp
          exact ⟨it, List.mem_cons_of_mem _ hit, hrest⟩
      | none =>
        dsimp only at hp
        by_cases hrot : e.allowRotation ∧ item.width ≠ item.height
        · rw [if_pos hrot] at hp
          cases hi2 : pk1.insert item.height item.width item.id with
          | mk p2 pk2 =>
            rw [hi2] at hp
            cases p2 with
            | some pl =>
              dsimp only at hp
              rcases List.mem_cons.1 hp with hp | hp
              · subst hp
                obtain ⟨k, r, _, hpl, _⟩ := insert_some_elim hi2
                refine ⟨item, List.mem_cons_self _ _, ?_,
                  Or.inr ⟨rfl, ?_, hrot.2, ?_, ?_⟩⟩ <;> simp [hpl, hrot.1]
              · obtain ⟨it, hit, hrest⟩ := ih pk2 p hp
                exact ⟨it, List.mem_cons_of_mem _ hit, hrest⟩
            | none =>
              dsimp only at hp
              obtain ⟨it, hit, hrest⟩ := ih pk2 p hp
              exact ⟨it, List.mem_cons_of_mem _ hit, hrest⟩
        · rw [if_neg hrot] at hp
          dsimp only at hp
          obtain ⟨it, hit, hrest⟩ := ih pk1 p hp
          exact ⟨it, List.mem_cons_of_mem _ hit, hrest⟩

/-! ## The sort is a permutation -/

theorem insertByArea_perm (it : Item α) (l : List (Item α)) :
    (NestingEngine.insertByArea it l).Perm (it :: l) := by
  induction l with
  | nil => exact List.Perm.refl _
  | cons y ys ih =>
    rw [NestingEngine.insertByArea]
    split
    · exact List.Perm.refl _
    · exact (ih.cons y).trans (List.Perm.swap _ _ _)

theorem sortByAreaDesc_perm (items : List (Item α)) :
    (NestingEngine.sortByAreaDesc items).Perm items := by
  induction items with
  | nil => exact List.Perm.refl _
  | cons a l ih =>
    have : NestingEngine.sortByAreaDesc (a :: l) =
        NestingEngine.insertByArea a (NestingEngine.sortByAreaDesc l) := rfl
    rw [this]
    exact (insertByArea_perm a _).trans (ih.cons a)

/-! ## Engine-level lemmas -/

theorem expandedEngine_spacing (e : NestingEngine α) (ps : List (Placement α))
    (h : e.spacing ≠ 0) :
    (NestingEngine.expandedEngine e ps).spacing = e.spacing := by
  unfold NestingEngine.expandedEngine NestingEngine.make numOr
  simp [h]

theorem expandedEngine_rot (e : NestingEngine α) (ps : List (Placement α)) :
    (NestingEngine.expandedEngine e ps).allowRotation = e.allowRotation := by
  unfold NestingEngine.expandedEngine NestingEngine.make
  simp

theorem make_spacing_pos (o : Options α) (hs : ∀ s ∈ o.spacing, 0 ≤ s) :
    0 < (NestingEngine.make o).spacing := by
  unfold NestingEngine.make numOr
  cases ho : o.spacing with
  | none => dsimp only; norm_num
  | some s =>
    dsimp only
    by_cases h0 : s = 0
    · rw [if_pos h0]; norm_num
    · rw [if_neg h0]
      have hmem : s ∈ o.spacing := by rw [ho]; rfl
      exact lt_of_le_of_ne (hs s hmem) (Ne.symm h0)

theorem nestAttempt_inv (e : NestingEngine α) (items : List (Item α))
    (hsp : 0 ≤ e.spacing)
    (hdims : ∀ it ∈ items, 0 ≤ it.width ∧ 0 ≤ it.height) :
    ((NestingEngine.nestAttempt e items).1.map
        (padded e.spacing)).Pairwise Disj ∧
    ∀ p ∈ (NestingEngine.nestAttempt e items).1,
      InBin e.targetWidth e.targetHeight (padded e.spacing p) := by
  have hdims' : ∀ it ∈ NestingEngine.sortByAreaDesc items,
      0 ≤ it.width ∧ 0 ≤ it.height :=
    fun it hit => hdims it ((sortByAreaDesc_perm items).mem_iff.1 hit)
  obtain ⟨HP, HIn⟩ := placeItems_inv e (NestingEngine.sortByAreaDesc items)
    (GuillouinePacker.make e.targetWidth e.targetHeight e.spacing) []
    (inv_init _ _ _) hsp hdims'
  exact ⟨by simpa using HP, fun p hp => HIn p hp⟩

theorem nestAttempt_src (e : NestingEngine α) (items : List (Item α)) :
    ∀ p ∈ (NestingEngine.nestAttempt e items).1,
      ∃ it ∈ items, p.id = it.id ∧
        ((p.rotated = false ∧ p.width = it.width ∧ p.height = it.height) ∨
         (p.rotated = true ∧ e.allowRotation = true ∧
           it.width ≠ it.height ∧
           p.width = it.height ∧ p.height = it.width)) := by
  intro p hp
  obtain ⟨it, hit, hrest⟩ :=
    placeItems_src e (NestingEngine.sortByAreaDesc items) _ p hp
  exact ⟨it, (sortByAreaDesc_perm items).mem_iff.1 hit, hrest⟩

/-- Master induction over the fuel-indexed `nest` recursion: any result
the source returns has pairwise-disjoint padded footprints, placements
inside the final region, and placements that correspond to input items
with the rotation discipline. -/
theorem nestFuel_master :
    ∀ (fuel : ℕ) (e : NestingEngine α) (items : List (Item α))
      (res : List (Placement α)) (last : NestingEngine α),
      0 < e.spacing →
      (∀ it ∈ items, 0 ≤ it.width ∧ 0 ≤ it.height) →
      NestingEngine.nestFuel fuel e items = some (res, last) →
      last.spacing = e.spacing ∧ last.allowRotation = e.allowRotation ∧
      (res.map (padded e.spacing)).Pairwise Disj ∧
      (∀ p ∈ res,
        InBin last.targetWidth last.targetHeight (padded e.spacing p)) ∧
      (∀ p ∈ res, ∃ it ∈ items, p.id = it.id ∧
        ((p.rotated = false ∧ p.width = it.width ∧ p.height = it.height) ∨
         (p.rotated = true ∧ e.allowRotation = true ∧
           it.width ≠ it.height ∧
           p.width = it.height ∧ p.height = it.width))) := by
  intro fuel
  induction fuel with
  | zero =>
    intro e items res last _ _ hrun
    simp [NestingEngine.nestFuel] at hrun
  | succ n ih =>
    intro e items res last hsp hdims hrun
    rw [NestingEngine.nestFuel] at hrun
    by_cases hempty : items.isEmpty
    · rw [if_pos hempty] at hrun
      simp only [Option.some.injEq, Prod.mk.injEq] at hrun
      obtain ⟨h1, h2⟩ := hrun
      subst h1; subst h2
      exact ⟨rfl, rfl, by simp, by simp, by simp⟩
    · rw [if_neg hempty] at hrun
      dsimp only at hrun
      by_cases hcond : ¬ (NestingEngine.nestAttempt e items).2.isEmpty ∧
          ¬ (NestingEngine.nestAttempt e items).1.isEmpty
      · rw [if_pos hcond] at hrun
        have hsp' : 0 < (NestingEngine.expandedEngine e
            (NestingEngine.nestAttempt e items).1).spacing := by
          rw [expandedEngine_spacing e _ (ne_of_gt hsp)]
          exact hsp
        obtain ⟨f1, f2, f3, f4, f5⟩ := ih _ items res last hsp' hdims hrun
        rw [expandedEngine_spacing e _ (ne_of_gt hsp)] at f1 f3 f4
        rw [expandedEngine_rot] at f2 f5
        exact ⟨f1, f2, f3, f4, f5⟩
      · rw [if_neg hcond] at hrun
        simp only [Option.some.injEq, Prod.mk.injEq] at hrun
        obtain ⟨h1, h2⟩ := hrun
        subst h1; subst h2
        obtain ⟨HP, HIn⟩ := nestAttempt_inv e items (le_of_lt hsp) hdims
        exact ⟨rfl, rfl, HP, HIn, nestAttempt_src e items⟩

theorem nestFuel_src :
    ∀ (fuel : ℕ) (e : NestingEngine α) (items : List (Item α))
      (res : List (Placement α)) (last : NestingEngine α),
      NestingEngine.nestFuel fuel e items = some (res, last) →
      ∀ p ∈ res, ∃ it ∈ items, p.id = it.id ∧
        ((p.rotated = false ∧ p.width = it.width ∧ p.height = it.height) ∨
         (p.rotated = true ∧ e.allowRotation = true ∧
           it.width ≠ it.height ∧
           p.width = it.height ∧ p.height = it.width)) := by
  intro fuel
  induction fuel with
  | zero =>
    intro e items res last hrun
    simp [NestingEngine.nestFuel] at hrun
  | succ n ih =>
    intro e items res last hrun
    rw [NestingEngine.nestFuel] at hrun
    by_cases hempty : items.isEmpty
    · rw [if_pos hempty] at hrun
      simp only [Option.some.injEq, Prod.mk.injEq] at hrun
      obtain ⟨h1, h2⟩ := hrun
      subst h1
      intro p hp
      simp at hp
    · rw [if_neg hempty] at hrun
      dsimp only at hrun
      by_cases hcond : ¬ (NestingEngine.nestAttempt e items).2.isEmpty ∧
          ¬ (NestingEngine.nestAttempt e items).1.isEmpty
      · rw [if_pos hcond] at hrun
        have := ih _ items res last hrun
        rwa [expandedEngine_rot] at this
      · rw [if_neg hcond] at hrun
        simp only [Option.some.injEq, Prod.mk.injEq] at hrun
        obtain ⟨h1, h2⟩ := hrun
        subst h1
        exact nestAttempt_src e items

theorem nestFuel_mono :
    ∀ (n : ℕ) (e : NestingEngine α) (items : List (Item α))
      (out : List (Placement α) × NestingEngine α),
      NestingEngine.nestFuel n e items = some out →
      NestingEngine.nestFuel (n + 1) e items = some out := by
  intro n
  induction n with
  | zero =>
    intro e items out h
    simp [NestingEngine.nestFuel] at h
  | succ m ih =>
    intro e items out h
    rw [NestingEngine.nestFuel] at h ⊢
    by_cases hempty : items.isEmpty
    · rwa [if_pos hempty] at h ⊢
    · rw [if_neg hempty] at h ⊢
      dsimp only at h ⊢
      by_cases hcond : ¬ (NestingEngine.nestAttempt e items).2.isEmpty ∧
          ¬ (NestingEngine.nestAttempt e items).1.isEmpty
      · rw [if_pos hcond] at h ⊢
        exact ih _ items out h
      · rwa [if_neg hcond] at h ⊢

theorem nestFuel_add (n k : ℕ) (e : NestingEngine α) (items : List (Item α))
    (out : List (Placement α) × NestingEngine α)
    (h : NestingEngine.nestFuel n e items = some out) :
    NestingEngine.nestFuel (n + k) e items = some out := by
  induction k with
  | zero => exact h
  | succ m ih => exact nestFuel_mono _ e items out ih

theorem runInserts_inv :
    ∀ (reqs : List (α × α × ℕ)) (pk : GuillouinePacker α)
      (placed : List (FreeRect α)),
      Inv pk placed → 0 ≤ pk.spacing →
      (∀ r ∈ reqs, 0 ≤ r.1 ∧ 0 ≤ r.2.1) →
      ∃ placed', Inv (runInserts pk reqs) placed' ∧
        (runInserts pk reqs).binWidth = pk.binWidth ∧
        (runInserts pk reqs).binHeight = pk.binHeight := by
  intro reqs
  induction reqs with
  | nil =>
    intro pk placed hinv hsp hreqs
    exact ⟨placed, hinv, rfl, rfl⟩
  | cons req rest ih =>
    intro pk placed hinv hsp hreqs
    obtain ⟨w, h, id⟩ := req
    have hw : 0 ≤ w := (hreqs (w, h, id) (List.mem_cons_self _ _)).1
    have hh : 0 ≤ h := (hreqs (w, h, id) (List.mem_cons_self _ _)).2
    have hrest : ∀ r ∈ rest, 0 ≤ r.1 ∧ 0 ≤ r.2.1 :=
      fun r hr => hreqs r (List.mem_cons_of_mem _ hr)
    rw [runInserts]
    cases hi : pk.insert w h id with
    | mk p1 pk1 =>
      dsimp only
      cases p1 with
      | some pl =>
        obtain ⟨_, _, _, hbw, hbh, hsp1, hinv1⟩ :=
          insert_some_inv hinv (add_nonneg hw hsp) (add_nonneg hh hsp) hi
        obtain ⟨placed', hinv', hbw', hbh'⟩ := ih pk1 _ hinv1 (hsp1 ▸ hsp) hrest
        exact ⟨placed', hinv', by rw [hbw', hbw], by rw [hbh', hbh]⟩
      | none =>
        have hpk1 : pk = pk1 := (insert_none_state hi).symm
        subst hpk1
        exact ih pk placed hinv hsp hrest

/-! ## Claim theorems -/

/-- C1: for every item list and configuration (within the documented
caller contract: supplied spacing nonnegative, item dimensions
nonnegative), no two placements returned by one `nest()` call overlap:
the padded footprints `(width+spacing, height+spacing)` anchored at the
placements' `(x, y)` are pairwise disjoint. -/
theorem nest_no_overlap (fuel : ℕ) (o : Options α) (items : List (Item α))
    (res : List (Placement α)) (last : NestingEngine α)
    (hs : ∀ s ∈ o.spacing, 0 ≤ s)
    (hitems : ∀ it ∈ items, 0 ≤ it.width ∧ 0 ≤ it.height)
    (hrun : NestingEngine.nestFuel fuel (NestingEngine.make o) items =
      some (res, last)) :
    (res.map (padded (NestingEngine.make o).spacing)).Pairwise Disj :=
  (nestFuel_master fuel (NestingEngine.make o) items res last
    (make_spacing_pos o hs) hitems hrun).2.2.1

/-- C4: every placement of a `nest()` result lies inside the final
region: `(x, y)` to `(x+width, y+height)` is contained in
`[0, finalTargetWidth] × [0, finalTargetHeight]`, the dimensions of the
attempt that produced the returned result. -/
theorem nest_containment (fuel : ℕ) (o : Options α) (items : List (Item α))
    (res : List (Placement α)) (last : NestingEngine α)
    (hs : ∀ s ∈ o.spacing, 0 ≤ s)
    (hitems : ∀ it ∈ items, 0 ≤ it.width ∧ 0 ≤ it.height)
    (hrun : NestingEngine.nestFuel fuel (NestingEngine.make o) items =
      some (res, last)) :
    ∀ p ∈ res, 0 ≤ p.x ∧ 0 ≤ p.y ∧ p.x + p.width ≤ last.targetWidth ∧
      p.y + p.height ≤ last.targetHeight := by
  have hsp : 0 < (NestingEngine.make o).spacing := make_spacing_pos o hs
  have hm := nestFuel_master fuel (NestingEngine.make o) items res last
    hsp hitems hrun
  intro p hp
  have hin := hm.2.2.2.1 p hp
  simp only [padded, InBin] at hin
  obtain ⟨h1, h2, h3, h4⟩ := hin
  exact ⟨h1, h2, by linarith, by linarith⟩

/-- C5: if no free rectangle can contain the padded footprint, `insert`
returns `None` and the packer state (in particular its free-rectangle
set) is completely unchanged. -/
theorem insert_no_fit_no_mutation (st : GuillouinePacker α)
    (width height : α) (id : ℕ)
    (h : ∀ r ∈ st.freeRectangles,
      ¬ (width + st.spacing ≤ r.width ∧ height + st.spacing ≤ r.height)) :
    st.insert width height id = (none, st) :=
  insert_none_of_no_fit st width height id h

/-- C6: a successful `insert` places at the top-left corner of a free
rectangle that admits the padded footprint, whose short-side-fit score
`min(rect.width - w, rect.height - h)` is minimal among all admitting
free rectangles, and which is the first such minimizer in enumeration
order (every earlier admitting rectangle scores strictly worse). -/
theorem insert_best_short_side_fit {st : GuillouinePacker α}
    {width height : α} {id : ℕ} {pl : RawPlacement α}
    {st' : GuillouinePacker α}
    (h : st.insert width height id = (some pl, st')) :
    ∃ (k : ℕ) (r : FreeRect α), st.freeRectangles[k]? = some r ∧
      Fits (width + st.spacing) (height + st.spacing) r ∧
      pl.x = r.x ∧ pl.y = r.y ∧
      (∀ (j : ℕ) (q : FreeRect α), st.freeRectangles[j]? = some q →
        Fits (width + st.spacing) (height + st.spacing) q →
        ssf (width + st.spacing) (height + st.spacing) r ≤
          ssf (width + st.spacing) (height + st.spacing) q) ∧
      (∀ (j : ℕ) (q : FreeRect α), j < k → st.freeRectangles[j]? = some q →
        Fits (width + st.spacing) (height + st.spacing) q →
        ssf (width + st.spacing) (height + st.spacing) r <
          ssf (width + st.spacing) (height + st.spacing) q) := by
  obtain ⟨k, r, hbc, hpl, _⟩ := insert_some_elim h
  obtain ⟨hget, hfit⟩ := bestCand_mem hbc
  exact ⟨k, r, hget, hfit, by rw [hpl], by rw [hpl],
    bestCand_min hbc, bestCand_first hbc⟩

/-- C7: the width and height advertised in every placement of a
`nest()` result equal the item's true unpadded dimensions (as given, or
swapped when rotated), never the spacing-padded footprint. -/
theorem nest_unpadded_dims (fuel : ℕ) (e : NestingEngine α)
    (items : List (Item α)) (res : List (Placement α))
    (last : NestingEngine α)
    (hrun : NestingEngine.nestFuel fuel e items = some (res, last)) :
    ∀ p ∈ res, ∃ it ∈ items, p.id = it.id ∧
      (p.rotated = false → p.width = it.width ∧ p.height = it.height) ∧
      (p.rotated = true → p.width = it.height ∧ p.height = it.width) := by
  intro p hp
  obtain ⟨it, hit, hid, hcase⟩ := nestFuel_src fuel e items res last hrun p hp
  refine ⟨it, hit, hid, ?_, ?_⟩
  · intro hr
    rcases hcase with ⟨_, h1, h2⟩ | ⟨h1, _⟩
    · exact ⟨h1, h2⟩
    · rw [hr] at h1; cases h1
  · intro hr
    rcases hcase with ⟨h1, _⟩ | ⟨_, _, _, h1, h2⟩
    · rw [hr] at h1; cases h1
    · exact ⟨h1, h2⟩

/-- C8: a placement has `rotated = true` only when rotation was enabled
and the item is not square, and then the placement's dimensions are the
item's swapped dimensions; square items never produce a rotated
placement. -/
theorem nest_rotation_legality (fuel : ℕ) (e : NestingEngine α)
    (items : List (Item α)) (res : List (Placement α))
    (last : NestingEngine α)
    (hrun : NestingEngine.nestFuel fuel e items = some (res, last)) :
    ∀ p ∈ res, p.rotated = true →
      e.allowRotation = true ∧
      ∃ it ∈ items, p.id = it.id ∧ it.width ≠ it.height ∧
        p.width = it.height ∧ p.height = it.width := by
  intro p hp hrot
  obtain ⟨it, hit, hid, hcase⟩ := nestFuel_src fuel e items res last hrun p hp
  rcases hcase with ⟨h1, _⟩ | ⟨_, h1, h2, h3, h4⟩
  · rw [hrot] at h1; cases h1
  · exact ⟨h1, it, hit, hid, h2, h3, h4⟩

/-- C9: `nest` is deterministic: any two runs on the same item list
with the same configuration (any sufficient fuel) produce identical
results. -/
theorem nest_deterministic (fuel1 fuel2 : ℕ) (e : NestingEngine α)
    (items : List (Item α))
    (out1 out2 : List (Placement α) × NestingEngine α)
    (h1 : NestingEngine.nestFuel fuel1 e items = some out1)
    (h2 : NestingEngine.nestFuel fuel2 e items = some out2) :
    out1 = out2 := by
  rcases Nat.le_total fuel1 fuel2 with hle | hle
  · obtain ⟨k, hk⟩ := Nat.le.dest hle
    have := nestFuel_add fuel1 k e items out1 h1
    rw [hk] at this
    rw [this] at h2
    exact Option.some.inj h2
  · obtain ⟨k, hk⟩ := Nat.le.dest hle
    have := nestFuel_add fuel2 k e items out2 h2
    rw [hk] at this
    rw [this] at h1
    exact (Option.some.inj h1).symm

/-- C10: in every packer state reachable from construction by a
sequence of `insert` calls (with nonnegative spacing and request
dimensions), the free rectangles are pairwise disjoint and each lies
within `[0, binWidth] × [0, binHeight]`. -/
theorem packer_free_rects_disjoint (W H s : α) (reqs : List (α × α × ℕ))
    (hs : 0 ≤ s) (hreqs : ∀ r ∈ reqs, 0 ≤ r.1 ∧ 0 ≤ r.2.1) :
    (runInserts (GuillouinePacker.make W H s) reqs).freeRectangles.Pairwise
      Disj ∧
    ∀ r ∈ (runInserts (GuillouinePacker.make W H s) reqs).freeRectangles,
      InBin W H r := by
  obtain ⟨placed', hinv', hbw, hbh⟩ :=
    runInserts_inv reqs (GuillouinePacker.make W H s) [] (inv_init W H s)
      hs hreqs
  refine ⟨hinv'.free_pair, ?_⟩
  intro r hr
  have hin := hinv'.free_in r hr
  rw [hbw, hbh] at hin
  exact hin

/-! ## C2: the expansion is not strict and the recursion can diverge -/

/-- C2 (refuted, code bug): at the input
`[{id 1, 2000×2000}, {id 2, 10×10}]` with the default configuration,
`nest` recurses (one item unplaced, one placed) but the expansion does
not change the region: `expandedEngine` returns the very same engine,
because the bounding box of the placed 10×10 item plus the fixed
100-unit margin stays below the current 1000×1000 target.  The
recursion therefore never terminates: `nestFuel` is `none` at every
fuel bound. -/
theorem nest_divergence_unchanged_expansion :
    (NestingEngine.expandedEngine
        (NestingEngine.make (⟨none, none, none, none⟩ : Options ℤ))
        (NestingEngine.nestAttempt
          (NestingEngine.make (⟨none, none, none, none⟩ : Options ℤ))
          [⟨1, 2000, 2000⟩, ⟨2, 10, 10⟩]).1 =
      NestingEngine.make (⟨none, none, none, none⟩ : Options ℤ)) ∧
    ¬ (NestingEngine.nestAttempt
        (NestingEngine.make (⟨none, none, none, none⟩ : Options ℤ))
        [⟨1, 2000, 2000⟩, ⟨2, 10, 10⟩]).2.isEmpty ∧
    ¬ (NestingEngine.nestAttempt
        (NestingEngine.make (⟨none, none, none, none⟩ : Options ℤ))
        [⟨1, 2000, 2000⟩, ⟨2, 10, 10⟩]).1.isEmpty ∧
    ∀ fuel : ℕ,
      NestingEngine.nestFuel fuel
        (NestingEngine.make (⟨none, none, none, none⟩ : Options ℤ))
        [⟨1, 2000, 2000⟩, ⟨2, 10, 10⟩] = none := by
  refine ⟨by decide, by decide, by decide, ?_⟩
  intro fuel
  induction fuel with
  | zero => rfl
  | succ n ih => exact ih

/-! ## C3: the spacing-0 configuration -/

/-- C3 (refuted): an engine constructed with `spacing: 0` does not use
margin 0: the JavaScript `||` default turns the falsy `0` into `10`.
A 995×995 item, which fits the initial 1000×1000 free rectangle under a
zero margin, is therefore not placed and `nest` returns the empty
list. -/
theorem spacing_zero_counterexample :
    (NestingEngine.make (⟨some 0, none, none, none⟩ : Options ℤ)).spacing
        = 10 ∧
    (NestingEngine.make (⟨some 0, none, none, none⟩ : Options ℤ)).spacing
        ≠ 0 ∧
    Fits ((995 : ℤ) + 0) (995 + 0) ⟨0, 0, 1000, 1000⟩ ∧
    NestingEngine.nestFuel 1
      (NestingEngine.make (⟨some 0, none, none, none⟩ : Options ℤ))
      [⟨1, 995, 995⟩] =
      some ([], NestingEngine.make ⟨some 0, none, none, none⟩) :=
  ⟨by decide, by decide, by decide, by decide⟩

/-- C3 (amended): a supplied positive spacing `s` is used exactly;
an absent spacing, or the (falsy) spacing `0`, yields the default 10;
and `insert` succeeds exactly when some free rectangle admits the
padded footprint `(width + spacing, height + spacing)`. -/
theorem spacing_semantics (o : Options α) (s : α) (st : GuillouinePacker α)
    (width height : α) (id : ℕ) :
    (o.spacing = some s → 0 < s → (NestingEngine.make o).spacing = s) ∧
    (o.spacing = none → (NestingEngine.make o).spacing = 10) ∧
    (o.spacing = some 0 → (NestingEngine.make o).spacing = 10) ∧
    ((st.insert width height id).1.isSome ↔
      ∃ r ∈ st.freeRectangles,
        width + st.spacing ≤ r.width ∧ height + st.spacing ≤ r.height) := by
  refine ⟨?_, ?_, ?_, ?_⟩
  · intro h hpos
    unfold NestingEngine.make numOr
    rw [h]
    dsimp only
    rw [if_neg (ne_of_gt hpos)]
  · intro h
    unfold NestingEngine.make numOr
    rw [h]
  · intro h
    unfold NestingEngine.make numOr
    rw [h]
    dsimp only
    rw [if_pos rfl]
  · rw [insert_eq]
    cases hc : bestCand (width + st.spacing) (height + st.spacing)
        st.freeRectangles with
    | none =>
      dsimp only
      simp only [Option.isSome_none, Bool.false_eq_true, false_iff]
      intro hcon
      obtain ⟨r, hr, h1, h2⟩ := hcon
      exact (bestCand_none_iff _ _ _).1 hc r hr ⟨h1, h2⟩
    | some p =>
      obtain ⟨k, r⟩ := p
      dsimp only
      simp only [Option.isSome_some, true_iff]
      obtain ⟨hget, hfit⟩ := bestCand_mem hc
      exact ⟨r, List.getElem?_mem hget, hfit.1, hfit.2⟩

/-! ## Witnesses -/

/-- Witness for C1: the spec's concrete scenario 1 (one 100×50 item,
default options) runs and yields a pairwise-disjoint result. -/
theorem nest_no_overlap_witness :
    (([⟨1, 0, 0, 100, 50, false⟩] : List (Placement ℤ)).map
      (padded (NestingEngine.make
        (⟨none, none, none, none⟩ : Options ℤ)).spacing)).Pairwise Disj :=
  nest_no_overlap 1 ⟨none, none, none, none⟩ [⟨1, 100, 50⟩]
    [⟨1, 0, 0, 100, 50, false⟩]
    (NestingEngine.make ⟨none, none, none, none⟩)
    (by intro s hs; simp at hs) (by decide) (by decide)

/-- Witness for C4: the single placement of the concrete run is inside
the final region. -/
theorem nest_containment_witness :
    (0 : ℤ) ≤ 0 ∧ (0 : ℤ) ≤ 0 ∧
    (0 : ℤ) + 100 ≤ (NestingEngine.make
      (⟨none, none, none, none⟩ : Options ℤ)).targetWidth ∧
    (0 : ℤ) + 50 ≤ (NestingEngine.make
      (⟨none, none, none, none⟩ : Options ℤ)).targetHeight :=
  nest_containment 1 ⟨none, none, none, none⟩ [⟨1, 100, 50⟩]
    [⟨1, 0, 0, 100, 50, false⟩]
    (NestingEngine.make ⟨none, none, none, none⟩)
    (by intro s hs; simp at hs) (by decide) (by decide)
    ⟨1, 0, 0, 100, 50, false⟩ (by decide)

/-- Witness for C5: a 20×20 request cannot fit a 10×10 packer and the
state is returned unchanged. -/
theorem insert_no_fit_no_mutation_witness :
    (GuillouinePacker.make (10 : ℤ) 10 0).insert 20 20 1 =
      (none, GuillouinePacker.make (10 : ℤ) 10 0) :=
  insert_no_fit_no_mutation (GuillouinePacker.make (10 : ℤ) 10 0) 20 20 1
    (by decide)

/-- Witness for C6: with free rectangles `[30×100 at 0, 20×20 at 30]`
and a 15×15 request (spacing 0) the packer picks the tighter 20×20
rectangle (score 5 against 15) at index 1 and places at `(30, 0)`. -/
theorem insert_best_short_side_fit_witness :
    ∃ (k : ℕ) (r : FreeRect ℤ),
      ([⟨0, 0, 30, 100⟩, ⟨30, 0, 20, 20⟩] : List (FreeRect ℤ))[k]? =
        some r ∧
      Fits (15 + 0) (15 + 0) r ∧
      (30 : ℤ) = r.x ∧ (0 : ℤ) = r.y ∧
      (∀ (j : ℕ) (q : FreeRect ℤ),
        ([⟨0, 0, 30, 100⟩, ⟨30, 0, 20, 20⟩] : List (FreeRect ℤ))[j]? =
          some q →
        Fits (15 + 0) (15 + 0) q →
        ssf (15 + 0) (15 + 0) r ≤ ssf (15 + 0) (15 + 0) q) ∧
      (∀ (j : ℕ) (q : FreeRect ℤ), j < k →
        ([⟨0, 0, 30, 100⟩, ⟨30, 0, 20, 20⟩] : List (FreeRect ℤ))[j]? =
          some q →
        Fits (15 + 0) (15 + 0) q →
        ssf (15 + 0) (15 + 0) r < ssf (15 + 0) (15 + 0) q) :=
  insert_best_short_side_fit
    (by decide : (GuillouinePacker.mk (100 : ℤ) 100 0
      [⟨0, 0, 30, 100⟩, ⟨30, 0, 20, 20⟩]).insert 15 15 7 =
      (some ⟨7, 30, 0, 15, 15⟩,
        ⟨100, 100, 0, [⟨0, 0, 30, 100⟩, ⟨45, 0, 5, 20⟩, ⟨30, 15, 15, 5⟩]⟩))

/-- Witness for C7: the rotated placement of a concrete run advertises
the item's unpadded (swapped) dimensions. -/
theorem nest_unpadded_dims_witness :
    ∃ it ∈ ([⟨1, 95, 40⟩, ⟨2, 50, 90⟩] : List (Item ℤ)),
      (⟨1, 51, 0, 40, 95, true⟩ : Placement ℤ).id = it.id ∧
      ((⟨1, 51, 0, 40, 95, true⟩ : Placement ℤ).rotated = false →
        (⟨1, 51, 0, 40, 95, true⟩ : Placement ℤ).width = it.width ∧
        (⟨1, 51, 0, 40, 95, true⟩ : Placement ℤ).height = it.height) ∧
      ((⟨1, 51, 0, 40, 95, true⟩ : Placement ℤ).rotated = true →
        (⟨1, 51, 0, 40, 95, true⟩ : Placement ℤ).width = it.height ∧
        (⟨1, 51, 0, 40, 95, true⟩ : Placement ℤ).height = it.width) :=
  nest_unpadded_dims 1
    (NestingEngine.make ⟨some 1, some true, some 100, some 100⟩)
    [⟨1, 95, 40⟩, ⟨2, 50, 90⟩]
    [⟨2, 0, 0, 50, 90, false⟩, ⟨1, 51, 0, 40, 95, true⟩]
    (NestingEngine.make ⟨some 1, some true, some 100, some 100⟩)
    (by decide) ⟨1, 51, 0, 40, 95, true⟩ (by decide)

/-- Witness for C8: the rotated placement of the concrete run was
produced with rotation enabled, from a non-square item, with swapped
dimensions. -/
theorem nest_rotation_legality_witness :
    (NestingEngine.make (⟨some 1, some true, some 100, some 100⟩ :
      Options ℤ)).allowRotation = true ∧
    ∃ it ∈ ([⟨1, 95, 40⟩, ⟨2, 50, 90⟩] : List (Item ℤ)),
      (⟨1, 51, 0, 40, 95, true⟩ : Placement ℤ).id = it.id ∧
      it.width ≠ it.height ∧
      (⟨1, 51, 0, 40, 95, true⟩ : Placement ℤ).width = it.height ∧
      (⟨1, 51, 0, 40, 95, true⟩ : Placement ℤ).height = it.width :=
  nest_rotation_legality 1
    (NestingEngine.make ⟨some 1, some true, some 100, some 100⟩)
    [⟨1, 95, 40⟩, ⟨2, 50, 90⟩]
    [⟨2, 0, 0, 50, 90, false⟩, ⟨1, 51, 0, 40, 95, true⟩]
    (NestingEngine.make ⟨some 1, some true, some 100, some 100⟩)
    (by decide) ⟨1, 51, 0, 40, 95, true⟩ (by decide) (by decide)

/-- Witness for C9: two runs at different fuel bounds agree. -/
theorem nest_deterministic_witness :
    (([⟨1, 0, 0, 100, 50, false⟩] : List (Placement ℤ)),
      NestingEngine.make (⟨none, none, none, none⟩ : Options ℤ)) =
    (([⟨1, 0, 0, 100, 50, false⟩] : List (Placement ℤ)),
      NestingEngine.make (⟨none, none, none, none⟩ : Options ℤ)) :=
  nest_deterministic 1 2 (NestingEngine.make ⟨none, none, none, none⟩)
    [⟨1, 100, 50⟩]
    (([⟨1, 0, 0, 100, 50, false⟩] : List (Placement ℤ)),
      NestingEngine.make ⟨none, none, none, none⟩)
    (([⟨1, 0, 0, 100, 50, false⟩] : List (Placement ℤ)),
      NestingEngine.make ⟨none, none, none, none⟩)
    (by decide) (by decide)

/-- Witness for C10: two inserts into a 100×100 packer leave pairwise
disjoint in-bin free rectangles. -/
theorem packer_free_rects_disjoint_witness :
    (runInserts (GuillouinePacker.make (100 : ℤ) 100 0)
      [(60, 60, 1), (30, 30, 2)]).freeRectangles.Pairwise Disj ∧
    ∀ r ∈ (runInserts (GuillouinePacker.make (100 : ℤ) 100 0)
      [(60, 60, 1), (30, 30, 2)]).freeRectangles, InBin (100 : ℤ) 100 r :=
  packer_free_rects_disjoint 100 100 0 [(60, 60, 1), (30, 30, 2)]
    (by decide) (by decide)

/-- Witness for the amended C3: spacing 5 is used exactly, absent and
zero spacing both give 10, and a fitting insert succeeds. -/
theorem spacing_semantics_witness :
    (NestingEngine.make (⟨some 5, none, none, none⟩ : Options ℤ)).spacing
        = 5 ∧
    (NestingEngine.make (⟨none, none, none, none⟩ : Options ℤ)).spacing
        = 10 ∧
    (NestingEngine.make (⟨some 0, none, none, none⟩ : Options ℤ)).spacing
        = 10 ∧
    ((GuillouinePacker.make (100 : ℤ) 100 5).insert 10 10 1).1.isSome :=
  ⟨(spacing_semantics ⟨some 5, none, none, none⟩ 5
      (GuillouinePacker.make (100 : ℤ) 100 5) 10 10 1).1 rfl (by decide),
   (spacing_semantics (⟨none, none, none, none⟩ : Options ℤ) 0
      (GuillouinePacker.make (100 : ℤ) 100 5) 10 10 1).2.1 rfl,
   (spacing_semantics (⟨some 0, none, none, none⟩ : Options ℤ) 0
      (GuillouinePacker.make (100 : ℤ) 100 5) 10 10 1).2.2.1 rfl,
   (spacing_semantics (⟨some 5, none, none, none⟩ : Options ℤ) 5
      (GuillouinePacker.make (100 : ℤ) 100 5) 10 10 1).2.2.2.2
     ⟨⟨0, 0, 100, 100⟩, by decide, by decide, by decide⟩⟩

end Nesting
